import Mathlib

/-!
# Verification of the hoot HTTP/1.x header parser

Shallow embedding of the parsing core of the `hoot` crate
(`src/lib.rs` and `src/media_type.rs`).

Conventions of the embedding:

* Bytes are modelled as `Nat` (the regexes run in `(?-u)` byte mode);
  byte classes such as `\S`, the `token` class, `OWS` and `field-content`
  become boolean predicates over `Nat`.
* Byte strings and streams are `List Nat`.
* The external `http` crate's validating constructors
  (`Method::from_bytes`, `Uri::from_shared`) are collaborators outside
  this repository; they are modelled as boolean validator parameters,
  and a decoded `Method`/`Uri` is represented by its byte string.
* Rust `Result` becomes `Except`; the per-layer error enums are kept.
* The anchored regexes of the source are translated into deterministic
  maximal-munch matchers.  Every repetition class in those regexes
  (`\S+`, token`+`, `[\t ]*`, field-content) excludes the byte that the
  regex requires next (SP, `:`, `/`, `;`, `=`, the first field-content
  byte), so greedy matching without backtracking is equivalent to the
  regex engine's leftmost match; the matchers below use `takeWhile` /
  `dropWhile` accordingly.
-/

/-- Byte class of the regex `\s` in `(?-u)` byte mode:
HTAB, LF, VT, FF, CR, SP. `\S` is its complement. -/
def isWSByte (b : Nat) : Bool :=
  b == 9 || b == 10 || b == 11 || b == 12 || b == 13 || b == 32

/-- The `token` byte class `[!#$%&'*+.^_\x60|~0-9A-Za-z-]` of
`src/lib.rs` (header-field name regex); the spec's Grammar Primitives
give the same set for the shared `TOKEN` pattern used by the
media-type parser. -/
def isTokenByte (b : Nat) : Bool :=
  b == 33 || b == 35 || b == 36 || b == 37 || b == 38 || b == 39 ||
  b == 42 || b == 43 || b == 45 || b == 46 ||
  (48 ≤ b && b ≤ 57) || (65 ≤ b && b ≤ 90) ||
  b == 94 || b == 95 || b == 96 || (97 ≤ b && b ≤ 122) ||
  b == 124 || b == 126

/-- Optional-whitespace byte class `[\t ]` of `src/lib.rs`. -/
def isOWSByte (b : Nat) : Bool :=
  b == 9 || b == 32

/-- Field-content byte class `[!-~\x80-\xFF]` of `src/lib.rs`:
visible ASCII 0x21..0x7E or an opaque high byte 0x80..0xFF. -/
def isFieldContentByte (b : Nat) : Bool :=
  (33 ≤ b && b ≤ 126) || (128 ≤ b && b ≤ 255)

/-! ## Request line (`parse_request_line`, src/lib.rs) -/

/-- The version enum of the `http` crate as used by `src/lib.rs`
(only the two variants the source can produce). -/
inductive Version where
  | HTTP_10
  | HTTP_11
deriving DecidableEq

/-- `InvalidRequestLine` of `src/lib.rs`; the payloads of the
`Method`/`Uri` variants are errors of the external `http` crate and are
dropped. -/
inductive InvalidRequestLine where
  | Format
  | Method
  | Uri
  | Version
deriving DecidableEq

/-- The byte string "HTTP/1.0". -/
def verBytes10 : List Nat := [72, 84, 84, 80, 47, 49, 46, 48]

/-- The byte string "HTTP/1.1". -/
def verBytes11 : List Nat := [72, 84, 84, 80, 47, 49, 46, 49]

/-- The anchored regex `^(\S+) (\S+) (\S+)$` of `parse_request_line`
as a deterministic matcher: three maximal runs of non-whitespace bytes
separated by single SP bytes, covering the whole input.  Greedy `\S+`
needs no backtracking because `\S` excludes the SP the regex demands
next. -/
def matchRequestLine (s : List Nat) : Option (List Nat × List Nat × List Nat) :=
  let g1 := s.takeWhile (fun b => !isWSByte b)
  let r1 := s.dropWhile (fun b => !isWSByte b)
  if g1.isEmpty then none
  else
    match r1 with
    | [] => none
    | c1 :: r1t =>
      if c1 = 32 then
        let g2 := r1t.takeWhile (fun b => !isWSByte b)
        let r2 := r1t.dropWhile (fun b => !isWSByte b)
        if g2.isEmpty then none
        else
          match r2 with
          | [] => none
          | c2 :: r2t =>
            if c2 = 32 then
              let g3 := r2t.takeWhile (fun b => !isWSByte b)
              let r3 := r2t.dropWhile (fun b => !isWSByte b)
              if g3.isEmpty then none
              else if r3.isEmpty then some (g1, g2, g3)
              else none
            else none
      else none

/-- The version literal match of `parse_request_line`:
`b"HTTP/1.0" => HTTP_10, b"HTTP/1.1" => HTTP_11, _ => Err(Version)`. -/
def recognizeVersion (v : List Nat) : Option Version :=
  if v = verBytes10 then some Version.HTTP_10
  else if v = verBytes11 then some Version.HTTP_11
  else none

/-- `parse_request_line` of `src/lib.rs`, parameterized by the external
`http` crate validators for `Method::from_bytes` and
`Uri::from_shared`.  On a regex match the three captures are checked in
the source's evaluation order: method, then URI, then the version
literal. -/
def parse_request_line (methodOk uriOk : List Nat → Bool) (s : List Nat) :
    Except InvalidRequestLine (List Nat × List Nat × Version) :=
  match matchRequestLine s with
  | none => .error .Format
  | some (g1, g2, g3) =>
    if methodOk g1 then
      if uriOk g2 then
        match recognizeVersion g3 with
        | some v => .ok (g1, g2, v)
        | none => .error .Version
      else .error .Uri
    else .error .Method

/-! ## Header field (`parse_header_field`, src/lib.rs) -/

/-- `InvalidHeaderField` of `src/lib.rs`; the payloads of the
`Name`/`Value` variants are errors of the external `http` crate and are
dropped. -/
inductive InvalidHeaderField where
  | Format
  | Name
  | Value
deriving DecidableEq

/-- Strip leading and trailing OWS (`[\t ]*`) from a byte string; under
the acceptance condition of `parse_header_field` this is exactly the
second capture group of its regex (which spans from the first to the
last field-content byte). -/
def trimOWS (r : List Nat) : List Nat :=
  ((r.dropWhile isOWSByte).reverse.dropWhile isOWSByte).reverse

/-- `parse_header_field` of `src/lib.rs`: the anchored regex
`^(token+):[\t ]*(FC([\t FC]*FC)?)[\t ]*$` as a deterministic matcher.
After the maximal token run and the literal `:`, the remainder matches
the value part of the regex exactly when every byte is OWS or
field-content and at least one field-content byte is present; the
captured value is the remainder trimmed of leading and trailing OWS.
The `HeaderName::from_bytes` / `HeaderValue::from_bytes` constructors
of the external `http` crate accept every byte the two captures can
contain, so they never fail here; the decoded name and value are
represented by the captured byte strings. -/
def parse_header_field (s : List Nat) :
    Except InvalidHeaderField (List Nat × List Nat) :=
  let name := s.takeWhile isTokenByte
  let rest := s.dropWhile isTokenByte
  if name.isEmpty then .error .Format
  else
    match rest with
    | [] => .error .Format
    | c :: r =>
      if c = 58 then
        if r.all (fun b => isOWSByte b || isFieldContentByte b) &&
            r.any isFieldContentByte then
          .ok (name, trimOWS r)
        else .error .Format
      else .error .Format

/-! ## Line reader and header block assembler
(`parse_request_header`, src/lib.rs) -/

/-- `InvalidRequestHeader` of `src/lib.rs`.  The `Io` variant is
omitted: streams are modelled as pure byte lists, on which the
underlying reads cannot fail. -/
inductive InvalidRequestHeader where
  | Format
  | RequestLine (e : InvalidRequestLine)
  | HeaderField (e : InvalidHeaderField)
deriving DecidableEq

/-- `LINE_CAP` of `src/lib.rs`. -/
def LINE_CAP : Nat := 16384

/-- `stream.take(f as u64).read_until(b'\n', line)` on a pure byte
stream: consume bytes up to and including the first LF, stopping early
after `f` bytes; returns the consumed line and the remaining stream.
`List.findIdx` returns the length of the stream when it holds no LF, so
`n` is the number of octets the Rust call reads in every case (LF found
within the cap, cap hit first, or EOF first). -/
def readUntilNL (f : Nat) (s : List Nat) : List Nat × List Nat :=
  (s.take (min f (s.findIdx (fun b => b == 10) + 1)),
   s.drop (min f (s.findIdx (fun b => b == 10) + 1)))

/-- The `next_line` closure of `parse_request_header`: read one line,
then fail with `Format` when zero octets were read or when the read
stopped at the `LINE_CAP` cap. -/
def next_line (stream : List Nat) :
    Except InvalidRequestHeader (List Nat × List Nat) :=
  if (readUntilNL LINE_CAP stream).1.length = 0 then .error .Format
  else if (readUntilNL LINE_CAP stream).1.length = LINE_CAP then .error .Format
  else .ok (readUntilNL LINE_CAP stream)

/-- `line.ends_with(b"\r\n")` of `src/lib.rs`. -/
def endsWithCRLF (l : List Nat) : Bool :=
  match l.reverse with
  | 10 :: 13 :: _ => true
  | _ => false

/-- `line.truncate(line.len() - 2)` of `src/lib.rs`. -/
def dropCRLF (l : List Nat) : List Nat := l.take (l.length - 2)

/-- `RequestHeader` of `src/lib.rs`; the decoded `Method` and `Uri` of
the external `http` crate are represented by their byte strings, and
the `HeaderMap` by an association list. -/
structure RequestHeader where
  method : List Nat
  uri : List Nat
  version : Version
  fields : List (List Nat × List Nat)
deriving DecidableEq

/-- `HeaderMap::insert` of the external `http` crate on the
association-list model: replace the value of an existing entry for the
name, else append the pair. -/
def insertField (fields : List (List Nat × List Nat)) (n v : List Nat) :
    List (List Nat × List Nat) :=
  if fields.any (fun p => p.1 == n) then
    fields.map (fun p => if p.1 == n then (n, v) else p)
  else fields ++ [(n, v)]

/-- The field loop of `parse_request_header`: read one line, require
the `\r\n` terminator, strip it; an empty stripped line completes the
header, any other line goes through `parse_header_field` and is
inserted into the field map. -/
def parseFields (methodB uriB : List Nat) (ver : Version)
    (fields : List (List Nat × List Nat)) (stream : List Nat) :
    Except InvalidRequestHeader RequestHeader :=
  match hn : next_line stream with
  | .error e => .error e
  | .ok (line, rest) =>
    if endsWithCRLF line then
      let l := dropCRLF line
      if l.isEmpty then .ok ⟨methodB, uriB, ver, fields⟩
      else
        match parse_header_field l with
        | .error e => .error (.HeaderField e)
        | .ok (nm, v) =>
          parseFields methodB uriB ver (insertField fields nm v) rest
    else .error .Format
termination_by stream.length
decreasing_by
  simp only [next_line, readUntilNL] at hn
  split at hn
  · exact absurd hn (by simp)
  · split at hn
    · exact absurd hn (by simp)
    · rename_i h0 hc
      rw [Except.ok.injEq, Prod.mk.injEq] at hn
      rw [← hn.2]
      rw [List.length_take] at h0
      rw [List.length_drop]
      omega

/-- `parse_request_header` of `src/lib.rs`, parameterized like
`parse_request_line` by the external method and URI validators: read
the request line (requiring its `\r\n`), then assemble the fields until
the blank line. -/
def parse_request_header (methodOk uriOk : List Nat → Bool)
    (stream : List Nat) : Except InvalidRequestHeader RequestHeader :=
  match next_line stream with
  | .error e => .error e
  | .ok (line, rest) =>
    if endsWithCRLF line then
      match parse_request_line methodOk uriOk (dropCRLF line) with
      | .error e => .error (.RequestLine e)
      | .ok (m, u, v) => parseFields m u v [] rest
    else .error .Format

/-! ## Media type (`parse_media_type`, src/media_type.rs)

`src/media_type.rs` builds its two regexes from the crate-root
constants `TOKEN` and `QUOTED_STRING_1G`, whose defining file is not
part of the sources here; `TOKEN` is `isTokenByte` above (the spec's
Grammar Primitives give the same class for both uses), and the
quoted-string pattern is modelled from the spec below. -/

/-- `InvalidMediaType` of `src/media_type.rs`. -/
inductive InvalidMediaType where
  | mk
deriving DecidableEq

/-- `MediaType` of `src/media_type.rs`; `type_` and `subtype` are kept
as byte strings (the source stores them as `String`s of the matched
token bytes) and the parameter `HashMap` is an association list. -/
structure MediaType where
  type_ : List Nat
  subtype : List Nat
  parameters : List (List Nat × List Nat)
deriving DecidableEq

/-- Modelled from the spec: the body of the `QUOTED_STRING_1G` pattern
(the crate-root constant is missing from the sources).  Per the spec's
Grammar Primitives, a quoted-string is a double-quote-delimited value
where `\` is an escape that protects the following byte.  This scans
the bytes after the opening quote: an unescaped `"` closes the string,
`\` consumes the following byte, any other byte is content; an
unterminated string or a trailing lone `\` fails.  Returns the content
(escapes still in place, as the regex captures them) and the bytes
after the closing quote; the bound on the remainder is carried for
termination of the parameter loop. -/
def scanQS : (s : List Nat) → Option (List Nat × {r : List Nat // r.length ≤ s.length})
  | [] => none
  | b :: t =>
    if b = 34 then some ([], ⟨t, by simp⟩)
    else if b = 92 then
      match t with
      | [] => none
      | c :: t2 =>
        match scanQS t2 with
        | some (content, ⟨r, hr⟩) =>
          some (b :: c :: content, ⟨r, by simp; omega⟩)
        | none => none
    else
      match scanQS t with
      | some (content, ⟨r, hr⟩) => some (b :: content, ⟨r, by simp; omega⟩)
      | none => none

/-- The parameter-value alternation `(TOKEN|QUOTED_STRING_1G)` of the
`R2` regex of `src/media_type.rs`: a non-empty maximal token run, or
else a quoted string (the token class excludes `"`, so the two
alternatives are decided by the first byte).  The capture of a quoted
value includes its delimiting quotes, as the one-group pattern's
capture does; returns the capture and the input after the match end. -/
def matchParamValue (s : List Nat) : Option (List Nat × List Nat) :=
  if (s.takeWhile isTokenByte).isEmpty then
    match s with
    | 34 :: t =>
      match scanQS t with
      | some (content, ⟨r, hr⟩) => some (34 :: (content ++ [34]), r)
      | none => none
    | _ => none
  else some (s.takeWhile isTokenByte, s.dropWhile isTokenByte)

theorem matchParamValue_rest_le (s q rest : List Nat)
    (h : matchParamValue s = some (q, rest)) : rest.length ≤ s.length := by
  unfold matchParamValue at h
  split at h
  · split at h
    · rename_i t
      split at h
      · rename_i content r hr heq
        rw [Option.some.injEq, Prod.mk.injEq] at h
        rw [← h.2]
        simp only [List.length_cons]
        omega
      · exact absurd h (by simp)
    · exact absurd h (by simp)
  · rw [Option.some.injEq, Prod.mk.injEq] at h
    rw [← h.2]
    exact (List.dropWhile_sublist _).length_le

/-- The quoted-value decoding of `parse_media_type`
(`src/media_type.rs`): when the captured value starts with `"`, take
the bytes strictly between the delimiting quotes and drop every `\`
byte, copying every other byte through; a bare token value is kept
as-is. -/
def decodeParamValue (q : List Nat) : List Nat :=
  if q.head? = some 34 then
    ((q.drop 1).take (q.length - 2)).filter (fun c => !(c == 92))
  else q

/-- The `R2` regex after its leading `[\t ]*`: the literal `;`, then
`[\t ]*`, the parameter-name token, the literal `=` and the value
alternation, combined with the decoding the source applies to the
value capture; returns the decoded (name, value) pair and the input
after the match end. -/
def matchParamAfterOWS (d : List Nat) :
    Option ((List Nat × List Nat) × List Nat) :=
  match d with
  | [] => none
  | c :: r1 =>
    if c = 59 then
      if ((r1.dropWhile isOWSByte).takeWhile isTokenByte).isEmpty then none
      else
        match (r1.dropWhile isOWSByte).dropWhile isTokenByte with
        | [] => none
        | e :: r4 =>
          if e = 61 then
            match matchParamValue r4 with
            | some (q, rest) =>
              some (((r1.dropWhile isOWSByte).takeWhile isTokenByte,
                decodeParamValue q), rest)
            | none => none
          else none
    else none

theorem matchParamAfterOWS_rest_lt (d : List Nat) (nv : List Nat × List Nat)
    (rest : List Nat) (h : matchParamAfterOWS d = some (nv, rest)) :
    rest.length < d.length := by
  unfold matchParamAfterOWS at h
  split at h
  · exact absurd h (by simp)
  · rename_i c r1
    split at h
    · split at h
      · exact absurd h (by simp)
      · split at h
        · exact absurd h (by simp)
        · rename_i e r4 heq4
          split at h
          · split at h
            · rename_i q rest2 heqv
              rw [Option.some.injEq, Prod.mk.injEq] at h
              rw [← h.2]
              have h1 := matchParamValue_rest_le r4 q rest2 heqv
              have h2 : (e :: r4).length ≤ r1.length := by
                rw [← heq4]
                exact le_trans ((List.dropWhile_sublist _).length_le)
                  ((List.dropWhile_sublist _).length_le)
              simp only [List.length_cons] at h2 ⊢
              omega
            · exact absurd h (by simp)
          · exact absurd h (by simp)
    · exact absurd h (by simp)

/-- The `R2` regex `^[\t ]*;[\t ]*(TOKEN)=(TOKEN|QUOTED_STRING_1G)` of
`src/media_type.rs` as a deterministic matcher with the source's value
decoding: skip the leading OWS, then match the rest of the segment. -/
def matchParam (s : List Nat) : Option ((List Nat × List Nat) × List Nat) :=
  matchParamAfterOWS (s.dropWhile isOWSByte)

theorem matchParam_rest_lt (s : List Nat) (nv : List Nat × List Nat)
    (rest : List Nat) (h : matchParam s = some (nv, rest)) :
    rest.length < s.length :=
  lt_of_lt_of_le (matchParamAfterOWS_rest_lt _ _ _ h)
    ((List.dropWhile_sublist _).length_le)

/-- `HashMap::insert` of the parameter map on the association-list
model: replace the value of an existing entry for the name, else
append the pair. -/
def insertParam (ps : List (List Nat × List Nat)) (k v : List Nat) :
    List (List Nat × List Nat) :=
  if ps.any (fun p => p.1 == k) then
    ps.map (fun p => if p.1 == k then (k, v) else p)
  else ps ++ [(k, v)]

/-- The `while s.len() > 0` parameter loop of `parse_media_type`: while
input bytes remain, match one `; name=value` segment (failing with
`InvalidMediaType` when none matches), insert the decoded pair, and
continue on the bytes after the match end. -/
def paramLoop (ps : List (List Nat × List Nat)) (s : List Nat) :
    Except InvalidMediaType (List (List Nat × List Nat)) :=
  match s with
  | [] => .ok ps
  | a :: tl =>
    match hm : matchParam (a :: tl) with
    | none => .error .mk
    | some ((nm, v), rest) => paramLoop (insertParam ps nm v) rest
termination_by s.length
decreasing_by exact matchParam_rest_lt _ _ _ hm

/-- The `R1` regex `^(TOKEN)/(TOKEN)` of `src/media_type.rs` as a
deterministic matcher (the token class excludes `/`, so the greedy
runs need no backtracking); returns the two captures and the input
after the match end. -/
def matchTypeSubtype (s : List Nat) : Option (List Nat × List Nat × List Nat) :=
  let t := s.takeWhile isTokenByte
  let r1 := s.dropWhile isTokenByte
  if t.isEmpty then none
  else
    match r1 with
    | [] => none
    | c :: r2 =>
      if c = 47 then
        let st := r2.takeWhile isTokenByte
        if st.isEmpty then none
        else some (t, st, r2.dropWhile isTokenByte)
      else none

/-- `parse_media_type` of `src/media_type.rs`: match `type/subtype`
anchored at the start (`R1`), then run the parameter loop on the
remaining input. -/
def parse_media_type (s : List Nat) : Except InvalidMediaType MediaType :=
  match matchTypeSubtype s with
  | none => .error .mk
  | some (t, st, rest) =>
    match paramLoop [] rest with
    | .error e => .error e
    | .ok ps => .ok ⟨t, st, ps⟩

/-! ## Spec-side predicates (input classes the claims quantify over) -/

/-- The request-line shape of the spec: `s` is exactly three non-empty
runs of non-whitespace bytes joined by single SP bytes. -/
def ReqShape (g1 g2 g3 s : List Nat) : Prop :=
  s = g1 ++ 32 :: (g2 ++ 32 :: g3) ∧
  g1 ≠ [] ∧ g2 ≠ [] ∧ g3 ≠ [] ∧
  (∀ b ∈ g1, isWSByte b = false) ∧
  (∀ b ∈ g2, isWSByte b = false) ∧
  (∀ b ∈ g3, isWSByte b = false)

instance (g1 g2 g3 s : List Nat) : Decidable (ReqShape g1 g2 g3 s) := by
  unfold ReqShape; infer_instance

/-- A non-empty `field-content` value as the spec describes it: first
and last byte visible ASCII or an opaque high byte, every byte either
such a byte or interior SP/HTAB. -/
def isFieldContentValue (v : List Nat) : Bool :=
  !v.isEmpty &&
  v.all (fun b => isOWSByte b || isFieldContentByte b) &&
  (match v.head? with
   | some c => isFieldContentByte c
   | none => false) &&
  (match v.getLast? with
   | some c => isFieldContentByte c
   | none => false)

/-- Content of a quoted string between the delimiting quotes: a `\`
protects the byte after it, any byte other than an unescaped `"` or
`\` stands for itself. -/
inductive QSContent : List Nat → Prop where
  | nil : QSContent []
  | qd (b : Nat) (t : List Nat) (h1 : b ≠ 34) (h2 : b ≠ 92)
      (ht : QSContent t) : QSContent (b :: t)
  | esc (c : Nat) (t : List Nat) (ht : QSContent t) :
      QSContent (92 :: c :: t)

/-- Modelled from the spec: the hypothetical header-field serializer of
the round-trip property, `name + ":" + value` (its `\r\n` terminator is
stripped by the line stage before `parse_header_field` sees a line). -/
def serializeField (n v : List Nat) : List Nat := n ++ 58 :: v

/-! ## Supporting lemmas -/

theorem takeWhile_append_cons (p : Nat → Bool) (l : List Nat) (c : Nat)
    (r : List Nat) (hl : ∀ b ∈ l, p b = true) (hc : p c = false) :
    (l ++ c :: r).takeWhile p = l ∧ (l ++ c :: r).dropWhile p = c :: r := by
  induction l with
  | nil =>
    simp [List.takeWhile_cons, List.dropWhile_cons, hc]
  | cons a t ih =>
    have ha : p a = true := hl a (by simp)
    have h := ih (fun b hb => hl b (by simp [hb]))
    simp only [List.cons_append, List.takeWhile_cons_of_pos ha,
      List.dropWhile_cons_of_pos ha]
    exact ⟨by rw [h.1], h.2⟩

theorem takeWhile_all (p : Nat → Bool) (l : List Nat)
    (h : ∀ b ∈ l, p b = true) :
    l.takeWhile p = l ∧ l.dropWhile p = [] := by
  induction l with
  | nil => simp
  | cons a t ih =>
    have ha : p a = true := h a (by simp)
    have h' := ih (fun b hb => h b (by simp [hb]))
    simp [List.takeWhile_cons_of_pos ha, List.dropWhile_cons_of_pos ha,
      h'.1, h'.2]

theorem ows_not_token {b : Nat} (h : isOWSByte b = true) :
    isTokenByte b = false := by
  simp only [isOWSByte, Bool.or_eq_true, beq_iff_eq] at h
  rcases h with rfl | rfl <;> decide

theorem fc_not_ows {b : Nat} (h : isFieldContentByte b = true) :
    isOWSByte b = false := by
  simp only [isFieldContentByte, Bool.or_eq_true, Bool.and_eq_true,
    decide_eq_true_eq] at h
  simp only [isOWSByte, Bool.or_eq_false_iff, beq_eq_false_iff_ne]
  omega

theorem ows_not_fc {b : Nat} (h : isOWSByte b = true) :
    isFieldContentByte b = false := by
  simp only [isOWSByte, Bool.or_eq_true, beq_iff_eq] at h
  rcases h with rfl | rfl <;> decide

theorem token_not_ows {b : Nat} (h : isTokenByte b = true) :
    isOWSByte b = false := by
  simp only [isTokenByte, Bool.or_eq_true, Bool.and_eq_true, beq_iff_eq,
    decide_eq_true_eq] at h
  simp only [isOWSByte, Bool.or_eq_false_iff, beq_eq_false_iff_ne]
  omega

theorem fieldContentValue_parts (v : List Nat)
    (h : isFieldContentValue v = true) :
    v ≠ [] ∧ (∀ b ∈ v, (isOWSByte b || isFieldContentByte b) = true) ∧
    (∀ x, v.head? = some x → isFieldContentByte x = true) ∧
    (∀ x, v.getLast? = some x → isFieldContentByte x = true) := by
  simp only [isFieldContentValue, Bool.and_eq_true, Bool.not_eq_true',
    List.all_eq_true] at h
  obtain ⟨⟨⟨h1, h2⟩, h3⟩, h4⟩ := h
  refine ⟨List.isEmpty_eq_false.mp h1, h2, ?_, ?_⟩
  · intro x hx
    rw [hx] at h3
    exact h3
  · intro x hx
    rw [hx] at h4
    exact h4

theorem trimOWS_restore (ows1 v ows2 : List Nat)
    (ho1 : ∀ b ∈ ows1, isOWSByte b = true)
    (ho2 : ∀ b ∈ ows2, isOWSByte b = true)
    (hv : isFieldContentValue v = true) :
    trimOWS (ows1 ++ (v ++ ows2)) = v := by
  obtain ⟨hv1, hvall, hvh, hvl⟩ := fieldContentValue_parts v hv
  obtain ⟨c, t, rfl⟩ := List.exists_cons_of_ne_nil hv1
  have hc : isFieldContentByte c = true := hvh c rfl
  unfold trimOWS
  have e1 : ows1 ++ ((c :: t) ++ ows2) = ows1 ++ c :: (t ++ ows2) := by simp
  rw [e1,
    (takeWhile_append_cons isOWSByte ows1 c (t ++ ows2) ho1 (fc_not_ows hc)).2]
  have e2 : (c :: (t ++ ows2)).reverse = ows2.reverse ++ (c :: t).reverse := by
    simp
  rw [e2]
  have hrev : (c :: t).reverse ≠ [] := by simp
  obtain ⟨lc, w, hw⟩ := List.exists_cons_of_ne_nil hrev
  have hlast : (c :: t).getLast? = some lc := by
    rw [← List.head?_reverse, hw]; rfl
  have hlc : isFieldContentByte lc = true := hvl lc hlast
  rw [hw,
    (takeWhile_append_cons isOWSByte ows2.reverse lc w
      (fun b hb => ho2 b (by simpa using hb)) (fc_not_ows hlc)).2,
    ← hw]
  simp

theorem parse_header_field_ok (name ows1 v ows2 : List Nat)
    (hn : name ≠ []) (hnt : ∀ b ∈ name, isTokenByte b = true)
    (ho1 : ∀ b ∈ ows1, isOWSByte b = true)
    (ho2 : ∀ b ∈ ows2, isOWSByte b = true)
    (hv : isFieldContentValue v = true) :
    parse_header_field (name ++ 58 :: (ows1 ++ (v ++ ows2))) = .ok (name, v) := by
  obtain ⟨hv1, hvall, hvh, hvl⟩ := fieldContentValue_parts v hv
  have hm := takeWhile_append_cons isTokenByte name 58 (ows1 ++ (v ++ ows2))
    hnt (by decide)
  have hne : name.isEmpty = false := List.isEmpty_eq_false.mpr hn
  have hall : (ows1 ++ (v ++ ows2)).all
      (fun b => isOWSByte b || isFieldContentByte b) = true := by
    rw [List.all_eq_true]
    intro b hb
    rcases List.mem_append.mp hb with h | h
    · simp [ho1 b h]
    · rcases List.mem_append.mp h with h | h
      · exact hvall b h
      · simp [ho2 b h]
  have hany : (ows1 ++ (v ++ ows2)).any isFieldContentByte = true := by
    rw [List.any_eq_true]
    obtain ⟨c, t, rfl⟩ := List.exists_cons_of_ne_nil hv1
    exact ⟨c, by simp, hvh c rfl⟩
  simp only [parse_header_field, hm.1, hm.2, hne, Bool.false_eq_true,
    if_false, if_true, hall, hany, Bool.and_self, reduceIte]
  rw [trimOWS_restore ows1 v ows2 ho1 ho2 hv]

/-! ## Claims about parse_header_field -/

/-- Claim C2: for every input line in which one or more SP or HTAB
bytes occur between the field name and the colon, `parse_header_field`
fails with the `Format` error. -/
theorem claim2_ws_before_colon (name ws rest : List Nat)
    (hnt : ∀ b ∈ name, isTokenByte b = true)
    (hws : ws ≠ []) (hwsa : ∀ b ∈ ws, isOWSByte b = true) :
    parse_header_field (name ++ (ws ++ 58 :: rest)) = .error .Format := by
  obtain ⟨w, ws2, rfl⟩ := List.exists_cons_of_ne_nil hws
  have hw : isOWSByte w = true := hwsa w (by simp)
  have hwt : isTokenByte w = false := ows_not_token hw
  have e1 : name ++ ((w :: ws2) ++ 58 :: rest) =
      name ++ w :: (ws2 ++ 58 :: rest) := by simp
  rw [e1]
  by_cases hn : name = []
  · subst hn
    simp only [List.nil_append, parse_header_field]
    rw [List.takeWhile_cons_of_neg (by simp [hwt])]
    simp
  · have hm := takeWhile_append_cons isTokenByte name w (ws2 ++ 58 :: rest)
      hnt hwt
    have hne : name.isEmpty = false := List.isEmpty_eq_false.mpr hn
    have hw58 : ¬ (w = 58) := by
      simp only [isOWSByte, Bool.or_eq_true, beq_iff_eq] at hw
      omega
    simp only [parse_header_field, hm.1, hm.2, hne, Bool.false_eq_true,
      if_false]
    simp [hw58]

/-- Claim C2 witness: `"CT : t"`-shaped input (SP before the colon)
fails with `Format`. -/
theorem claim2_witness :
    parse_header_field ([67, 84] ++ ([32] ++ 58 :: [32, 116])) =
      .error .Format :=
  claim2_ws_before_colon [67, 84] [32] [32, 116]
    (by decide) (by decide) (by decide)

/-- Claim C3: for every line `name ":" OWS value OWS` with a non-empty
token name and a non-empty field-content value, `parse_header_field`
returns that name and the value stripped of the surrounding OWS, with
interior whitespace and opaque high bytes preserved verbatim. -/
theorem claim3_value_trimmed (name ows1 v ows2 : List Nat)
    (hn : name ≠ []) (hnt : ∀ b ∈ name, isTokenByte b = true)
    (ho1 : ∀ b ∈ ows1, isOWSByte b = true)
    (ho2 : ∀ b ∈ ows2, isOWSByte b = true)
    (hv : isFieldContentValue v = true) :
    parse_header_field (name ++ 58 :: (ows1 ++ (v ++ ows2))) = .ok (name, v) :=
  parse_header_field_ok name ows1 v ows2 hn hnt ho1 ho2 hv

/-- Claim C3 witness: `"xy: a<TAB><0xFE><TAB> "` parses to name `xy`
and value `a<TAB><0xFE>` (interior HTAB and the high byte kept, the
surrounding OWS stripped). -/
theorem claim3_witness :
    parse_header_field ([120, 121] ++ 58 :: ([32] ++ ([97, 9, 254] ++ [9, 32]))) =
      .ok ([120, 121], [97, 9, 254]) :=
  claim3_value_trimmed [120, 121] [32] [97, 9, 254] [9, 32]
    (by decide) (by decide) (by decide) (by decide) (by decide)

/-- Claim C9 counterexample: the round-trip property fails as stated.
The value `" x"` (SP, `x`) contains no CR or LF, yet parsing the
serialized line `"Foo: x"` returns the trimmed value `"x"`, not the
serialized value `" x"`. -/
theorem claim9_counterexample :
    parse_header_field (serializeField [70, 111, 111] [32, 120]) =
      .ok ([70, 111, 111], [120]) ∧
    ([120] : List Nat) ≠ [32, 120] := by
  constructor
  · rfl
  · decide

/-- Claim C9 as amended: the round-trip holds once the value is
required to be non-empty field-content (no leading or trailing
SP/HTAB, no control bytes) and the name a non-empty token, which is
exactly what the leading/trailing-OWS trim and the value grammar
force. -/
theorem claim9_roundtrip (name v : List Nat)
    (hn : name ≠ []) (hnt : ∀ b ∈ name, isTokenByte b = true)
    (hv : isFieldContentValue v = true) :
    parse_header_field (serializeField name v) = .ok (name, v) := by
  have h := parse_header_field_ok name [] v [] hn hnt (by simp) (by simp) hv
  simpa [serializeField] using h

/-- Claim C9 witness: `"Foo:x y"` round-trips to `(Foo, x y)`. -/
theorem claim9_witness :
    parse_header_field (serializeField [70, 111, 111] [120, 32, 121]) =
      .ok ([70, 111, 111], [120, 32, 121]) :=
  claim9_roundtrip [70, 111, 111] [120, 32, 121]
    (by decide) (by decide) (by decide)

/-- Claim C10: for a valid token name, a line whose portion after the
colon is empty or all SP/HTAB fails with `Format`: the value grammar
demands at least one visible or high byte. -/
theorem claim10_no_empty_value (name ws : List Nat)
    (hn : name ≠ []) (hnt : ∀ b ∈ name, isTokenByte b = true)
    (hwsa : ∀ b ∈ ws, isOWSByte b = true) :
    parse_header_field (name ++ 58 :: ws) = .error .Format := by
  have hm := takeWhile_append_cons isTokenByte name 58 ws hnt (by decide)
  have hne : name.isEmpty = false := List.isEmpty_eq_false.mpr hn
  have hany : ws.any isFieldContentByte = false := by
    rw [List.any_eq_false]
    intro b hb
    simp [ows_not_fc (hwsa b hb)]
  simp only [parse_header_field, hm.1, hm.2, hne, Bool.false_eq_true,
    if_false, hany, Bool.and_false, reduceIte]

/-- Claim C10 witness: `"Foo:  "` (only SP after the colon) fails with
`Format`. -/
theorem claim10_witness :
    parse_header_field ([70, 111, 111] ++ 58 :: [32, 32]) = .error .Format :=
  claim10_no_empty_value [70, 111, 111] [32, 32]
    (by decide) (by decide) (by decide)

theorem matchRequestLine_complete (g1 g2 g3 : List Nat)
    (h1 : g1 ≠ []) (h2 : g2 ≠ []) (h3 : g3 ≠ [])
    (hw1 : ∀ b ∈ g1, isWSByte b = false)
    (hw2 : ∀ b ∈ g2, isWSByte b = false)
    (hw3 : ∀ b ∈ g3, isWSByte b = false) :
    matchRequestLine (g1 ++ 32 :: (g2 ++ 32 :: g3)) = some (g1, g2, g3) := by
  have p1 := takeWhile_append_cons (fun b => !isWSByte b) g1 32 (g2 ++ 32 :: g3)
    (fun b hb => by simp [hw1 b hb]) (by decide)
  have p2 := takeWhile_append_cons (fun b => !isWSByte b) g2 32 g3
    (fun b hb => by simp [hw2 b hb]) (by decide)
  have p3 := takeWhile_all (fun b => !isWSByte b) g3
    (fun b hb => by simp [hw3 b hb])
  simp only [matchRequestLine, p1.1, p1.2, p2.1, p2.2, p3.1, p3.2,
    List.isEmpty_eq_false.mpr h1, List.isEmpty_eq_false.mpr h2,
    List.isEmpty_eq_false.mpr h3, Bool.false_eq_true, if_false,
    List.isEmpty_nil, reduceIte]

theorem matchRequestLine_sound (s g1 g2 g3 : List Nat)
    (h : matchRequestLine s = some (g1, g2, g3)) : ReqShape g1 g2 g3 s := by
  simp only [matchRequestLine] at h
  split at h
  · exact absurd h (by simp)
  · split at h
    · exact absurd h (by simp)
    · split at h
      · split at h
        · exact absurd h (by simp)
        · split at h
          · exact absurd h (by simp)
          · split at h
            · split at h
              · exact absurd h (by simp)
              · split at h
                · rename_i hg1e scr1 c1 r1t heq1 hc1 hg2e scr2 c2 r2t heq2 hc2 hg3 hr3
                  rw [Option.some.injEq, Prod.mk.injEq, Prod.mk.injEq] at h
                  obtain ⟨e1, e2, e3⟩ := h
                  subst e1
                  subst e2
                  subst e3
                  subst hc1
                  subst hc2
                  have hA : s = s.takeWhile (fun b => !isWSByte b) ++
                      (32 :: r1t) := by
                    rw [← heq1]
                    exact (List.takeWhile_append_dropWhile _ _).symm
                  have hB : r1t = r1t.takeWhile (fun b => !isWSByte b) ++
                      (32 :: r2t) := by
                    rw [← heq2]
                    exact (List.takeWhile_append_dropWhile _ _).symm
                  have hr3e : r2t.dropWhile (fun b => !isWSByte b) = [] :=
                    List.isEmpty_iff.mp hr3
                  have hC : r2t.takeWhile (fun b => !isWSByte b) = r2t := by
                    conv_rhs => rw [← List.takeWhile_append_dropWhile
                      (fun b => !isWSByte b) r2t, hr3e]
                    simp
                  refine ⟨?_, ?_, ?_, ?_, ?_, ?_, ?_⟩
                  · rw [hC, ← hB, ← hA]
                  · simpa using hg1e
                  · simpa using hg2e
                  · simpa using hg3
                  · intro b hb
                    simpa using List.mem_takeWhile_imp hb
                  · intro b hb
                    simpa using List.mem_takeWhile_imp hb
                  · intro b hb
                    simpa using List.mem_takeWhile_imp hb
                · exact absurd h (by simp)
            · exact absurd h (by simp)
      · exact absurd h (by simp)

/-! ## Claims about parse_request_line -/

/-- Claim C1: on an input of exactly three non-empty non-whitespace
runs joined by single SPs, with valid method and URI and a recognized
version literal, `parse_request_line` returns the three decoded
components; on any input not of that shape (a second consecutive
space, leading or trailing whitespace, more or fewer runs) the regex
fails to match and the result is the `Format` error. -/
theorem claim1_request_line_shape (methodOk uriOk : List Nat → Bool)
    (s : List Nat) :
    (∀ g1 g2 g3 v, ReqShape g1 g2 g3 s → methodOk g1 = true →
      uriOk g2 = true → recognizeVersion g3 = some v →
      parse_request_line methodOk uriOk s = .ok (g1, g2, v)) ∧
    ((¬ ∃ g1 g2 g3, ReqShape g1 g2 g3 s) ↔ matchRequestLine s = none) ∧
    (matchRequestLine s = none →
      parse_request_line methodOk uriOk s = .error .Format) := by
  refine ⟨?_, ⟨?_, ?_⟩, ?_⟩
  · rintro g1 g2 g3 v ⟨hs, h1, h2, h3, hw1, hw2, hw3⟩ hm hu hv
    subst hs
    simp only [parse_request_line,
      matchRequestLine_complete g1 g2 g3 h1 h2 h3 hw1 hw2 hw3,
      hm, hu, hv, if_true]
  · intro hne
    cases hmr : matchRequestLine s with
    | none => rfl
    | some t =>
      obtain ⟨g1, g2, g3⟩ := t
      exact absurd ⟨g1, g2, g3, matchRequestLine_sound s g1 g2 g3 hmr⟩ hne
  · rintro hnone ⟨g1, g2, g3, hs, h1, h2, h3, hw1, hw2, hw3⟩
    subst hs
    rw [matchRequestLine_complete g1 g2 g3 h1 h2 h3 hw1 hw2 hw3] at hnone
    exact absurd hnone (by simp)
  · intro hnone
    simp [parse_request_line, hnone]

/-- Claim C1 witness: `"GET / HTTP/1.1"` parses to its three tokens,
and `"G  /"` (two consecutive spaces) fails with `Format`. -/
theorem claim1_witness :
    parse_request_line (fun x => true) (fun x => true)
      ([71, 69, 84] ++ 32 :: ([47] ++ 32 :: verBytes11)) =
      .ok ([71, 69, 84], [47], Version.HTTP_11) ∧
    parse_request_line (fun x => true) (fun x => true)
      [71, 32, 32, 47] = .error .Format := by
  constructor
  · exact (claim1_request_line_shape (fun x => true) (fun x => true)
      ([71, 69, 84] ++ 32 :: ([47] ++ 32 :: verBytes11))).1
      [71, 69, 84] [47] verBytes11 Version.HTTP_11
      (by decide) rfl rfl (by decide)
  · exact (claim1_request_line_shape (fun x => true) (fun x => true)
      [71, 32, 32, 47]).2.2 (by decide)

/-- Claim C5: with the three-run shape and valid method and target,
the version is `HTTP_10` exactly for the literal `HTTP/1.0` and
`HTTP_11` exactly for `HTTP/1.1`; any other third run (for example
`HTTP/0.9` or `HTTP/2.0`) gives the `Version` error
(`UnrecognizedVersion`), which is distinct from `Format`. -/
theorem claim5_version_literal (methodOk uriOk : List Nat → Bool)
    (g1 g2 g3 : List Nat)
    (h1 : g1 ≠ []) (h2 : g2 ≠ []) (h3 : g3 ≠ [])
    (hw1 : ∀ b ∈ g1, isWSByte b = false)
    (hw2 : ∀ b ∈ g2, isWSByte b = false)
    (hw3 : ∀ b ∈ g3, isWSByte b = false)
    (hm : methodOk g1 = true) (hu : uriOk g2 = true) :
    (g3 = verBytes10 →
      parse_request_line methodOk uriOk (g1 ++ 32 :: (g2 ++ 32 :: g3)) =
        .ok (g1, g2, Version.HTTP_10)) ∧
    (g3 = verBytes11 →
      parse_request_line methodOk uriOk (g1 ++ 32 :: (g2 ++ 32 :: g3)) =
        .ok (g1, g2, Version.HTTP_11)) ∧
    (g3 ≠ verBytes10 → g3 ≠ verBytes11 →
      parse_request_line methodOk uriOk (g1 ++ 32 :: (g2 ++ 32 :: g3)) =
        .error .Version) ∧
    InvalidRequestLine.Version ≠ InvalidRequestLine.Format := by
  have hc := matchRequestLine_complete g1 g2 g3 h1 h2 h3 hw1 hw2 hw3
  refine ⟨?_, ?_, ?_, by decide⟩
  · rintro rfl
    simp only [parse_request_line, hc]
    simp [recognizeVersion, hm, hu]
  · rintro rfl
    simp only [parse_request_line, hc]
    simp [recognizeVersion, hm, hu, verBytes10, verBytes11]
  · intro hv10 hv11
    simp only [parse_request_line, hc]
    simp [recognizeVersion, hm, hu, hv10, hv11]

/-- Claim C5 witness: with method `G` and target `/`, the literal
`HTTP/1.0` gives `HTTP_10`, `HTTP/1.1` gives `HTTP_11`, and
`HTTP/2.0` gives the `Version` error. -/
theorem claim5_witness :
    parse_request_line (fun x => true) (fun x => true)
      ([71] ++ 32 :: ([47] ++ 32 :: verBytes10)) =
      .ok ([71], [47], Version.HTTP_10) ∧
    parse_request_line (fun x => true) (fun x => true)
      ([71] ++ 32 :: ([47] ++ 32 :: verBytes11)) =
      .ok ([71], [47], Version.HTTP_11) ∧
    parse_request_line (fun x => true) (fun x => true)
      ([71] ++ 32 :: ([47] ++ 32 :: [72, 84, 84, 80, 47, 50, 46, 48])) =
      .error .Version := by
  refine ⟨?_, ?_, ?_⟩
  · exact (claim5_version_literal (fun x => true) (fun x => true)
      [71] [47] verBytes10 (by decide) (by decide) (by decide)
      (by decide) (by decide) (by decide) rfl rfl).1 rfl
  · exact (claim5_version_literal (fun x => true) (fun x => true)
      [71] [47] verBytes11 (by decide) (by decide) (by decide)
      (by decide) (by decide) (by decide) rfl rfl).2.1 rfl
  · exact (claim5_version_literal (fun x => true) (fun x => true)
      [71] [47] [72, 84, 84, 80, 47, 50, 46, 48] (by decide) (by decide)
      (by decide) (by decide) (by decide) (by decide) rfl rfl).2.2.1
      (by decide) (by decide)

/-! ## Claims about the line-reading stage of parse_request_header -/

theorem next_line_error_format (s : List Nat) (e : InvalidRequestHeader)
    (h : next_line s = .error e) : e = .Format := by
  unfold next_line at h
  split at h
  · exact (Except.error.injEq _ _).mp h.symm
  · split at h
    · exact (Except.error.injEq _ _).mp h.symm
    · exact absurd h (by simp)

theorem next_line_ok_shape (stream line rest : List Nat)
    (h : next_line stream = .ok (line, rest)) :
    line = (readUntilNL LINE_CAP stream).1 ∧
    rest = (readUntilNL LINE_CAP stream).2 ∧
    line.length ≠ 0 ∧ line.length ≠ LINE_CAP := by
  unfold next_line at h
  split at h
  · exact absurd h (by simp)
  · split at h
    · exact absurd h (by simp)
    · rename_i h0 hc
      rw [Except.ok.injEq, Prod.ext_iff] at h
      obtain ⟨hl, hr⟩ := h
      simp only at hl hr
      exact ⟨hl.symm, hr.symm, by rw [← hl]; exact h0, by rw [← hl]; exact hc⟩

theorem findIdx_ge_of_not (p : Nat → Bool) (l r : List Nat)
    (h : ∀ b ∈ l, p b = false) :
    l.length ≤ ((l ++ r).findIdx p) := by
  induction l with
  | nil => simp
  | cons a t ih =>
    have ha := h a (by simp)
    have h' := ih (fun b hb => h b (by simp [hb]))
    simp only [List.cons_append, List.findIdx_cons, ha, cond_false,
      List.length_cons]
    omega

theorem findIdx_eq_of_first (p : Nat → Bool) (l : List Nat) (a : Nat)
    (r : List Nat) (h : ∀ b ∈ l, p b = false) (ha : p a = true) :
    ((l ++ a :: r).findIdx p) = l.length := by
  induction l with
  | nil => simp [List.findIdx_cons, ha]
  | cons b t ih =>
    have hb := h b (by simp)
    have h' := ih (fun x hx => h x (by simp [hx]))
    simp only [List.cons_append, List.findIdx_cons, hb, cond_false, h',
      List.length_cons]

/-- Claim C4: every line consumed by `parse_request_header` (the first
line, and by the second conjunct every line of the field loop in any
of its states) is accepted only when it ends in the exact pair
`\r\n`: a read of zero octets, a line stopped at the `LINE_CAP` cap,
and a line not terminating in `\r\n` (in particular one ending in bare
`\n`) each make the whole parse fail with `Format`. -/
theorem claim4_line_termination (methodOk uriOk : List Nat → Bool)
    (mB uB : List Nat) (ver : Version)
    (fields : List (List Nat × List Nat)) (stream : List Nat)
    (h : (readUntilNL LINE_CAP stream).1.length = 0 ∨
         (readUntilNL LINE_CAP stream).1.length = LINE_CAP ∨
         endsWithCRLF (readUntilNL LINE_CAP stream).1 = false) :
    parse_request_header methodOk uriOk stream = .error .Format ∧
    parseFields mB uB ver fields stream = .error .Format := by
  have herr : ∀ e, next_line stream = .error e → e = .Format :=
    next_line_error_format stream
  constructor
  · unfold parse_request_header
    split
    · rename_i e heq
      rw [herr e heq]
    · rename_i line rest heq
      obtain ⟨hl, hr, hne0, hnecap⟩ := next_line_ok_shape stream line rest heq
      rcases h with h0 | hcap | hcrlf
      · exact absurd (hl ▸ h0) hne0
      · exact absurd (hl ▸ hcap) hnecap
      · rw [if_neg (by rw [hl, hcrlf]; simp)]
  · unfold parseFields
    split
    · rename_i e heq
      rw [herr e heq]
    · rename_i line rest heq
      obtain ⟨hl, hr, hne0, hnecap⟩ := next_line_ok_shape stream line rest heq
      rcases h with h0 | hcap | hcrlf
      · exact absurd (hl ▸ h0) hne0
      · exact absurd (hl ▸ hcap) hnecap
      · rw [if_neg (by rw [hl, hcrlf]; simp)]

/-- Claim C4 witness: the empty stream (zero octets), a stream whose
first line ends in bare `\n`, and a stream of one line with no
terminator at all each fail with `Format`. -/
theorem claim4_witness :
    parse_request_header (fun x => true) (fun x => true) [] =
      .error .Format ∧
    parse_request_header (fun x => true) (fun x => true) [65, 10, 13, 10] =
      .error .Format ∧
    parseFields [71] [47] Version.HTTP_11 [] [65] = .error .Format := by
  refine ⟨?_, ?_, ?_⟩
  · exact (claim4_line_termination (fun x => true) (fun x => true)
      [] [] Version.HTTP_10 [] [] (by decide)).1
  · exact (claim4_line_termination (fun x => true) (fun x => true)
      [] [] Version.HTTP_10 [] [65, 10, 13, 10] (by decide)).1
  · exact (claim4_line_termination (fun x => true) (fun x => true)
      [71] [47] Version.HTTP_11 [] [65] (by decide)).2

/-- Claim C8: at the line-reading stage, a line of exactly `LINE_CAP`
(16384) octets with no LF fails with `Format`, while a line of
`LINE_CAP - 1` (16383) octets ending in `\r\n` is read successfully
(and then also passes the `\r\n` check of `parse_request_header`). -/
theorem claim8_line_cap_boundary (lineA pre restA restB : List Nat)
    (hA1 : lineA.length = LINE_CAP) (hA2 : ∀ b ∈ lineA, b ≠ 10)
    (hB1 : pre.length + 3 = LINE_CAP) (hpre : ∀ b ∈ pre, b ≠ 10) :
    next_line (lineA ++ restA) = .error .Format ∧
    next_line ((pre ++ [13, 10]) ++ restB) = .ok (pre ++ [13, 10], restB) ∧
    endsWithCRLF (pre ++ [13, 10]) = true ∧
    (pre ++ [13, 10]).length = LINE_CAP - 1 := by
  have hten : ∀ b ∈ lineA, (fun x => x == 10) b = false := by
    intro b hb
    simp [hA2 b hb]
  have hidxA : LINE_CAP ≤ ((lineA ++ restA).findIdx (fun x => x == 10)) := by
    rw [← hA1]
    exact findIdx_ge_of_not _ lineA restA hten
  have hnA : min LINE_CAP ((lineA ++ restA).findIdx (fun x => x == 10) + 1) =
      LINE_CAP := by omega
  have hlenA : ((lineA ++ restA).take LINE_CAP).length = LINE_CAP := by
    rw [List.length_take, List.length_append, hA1]
    omega
  have hshape : (pre ++ [13, 10]) ++ restB = (pre ++ [13]) ++ 10 :: restB := by
    simp
  have hpre13 : ∀ b ∈ pre ++ [13], (fun x => x == 10) b = false := by
    intro b hb
    rcases List.mem_append.mp hb with hb | hb
    · simp [hpre b hb]
    · simp only [List.mem_singleton] at hb
      subst hb
      decide
  have hidxB : (((pre ++ [13]) ++ 10 :: restB).findIdx (fun x => x == 10)) =
      pre.length + 1 := by
    rw [findIdx_eq_of_first _ (pre ++ [13]) 10 restB hpre13 (by decide)]
    simp
  have hnB : min LINE_CAP
      (((pre ++ [13]) ++ 10 :: restB).findIdx (fun x => x == 10) + 1) =
      pre.length + 2 := by
    rw [hidxB]
    omega
  have hlen2 : (pre ++ [13, 10]).length = pre.length + 2 := by simp
  refine ⟨?_, ?_, ?_, by simp; omega⟩
  · unfold next_line readUntilNL
    rw [hnA, hlenA]
    rw [if_neg (by simp [LINE_CAP]), if_pos rfl]
  · unfold next_line readUntilNL
    rw [hshape, hnB]
    have htake : ((pre ++ [13]) ++ 10 :: restB).take (pre.length + 2) =
        pre ++ [13, 10] := by
      have e : (pre ++ [13]) ++ 10 :: restB = (pre ++ [13, 10]) ++ restB := by
        simp
      rw [e, ← hlen2, List.take_left]
    have hdrop : ((pre ++ [13]) ++ 10 :: restB).drop (pre.length + 2) =
        restB := by
      have e : (pre ++ [13]) ++ 10 :: restB = (pre ++ [13, 10]) ++ restB := by
        simp
      rw [e, ← hlen2, List.drop_left]
    rw [htake, hdrop, hlen2]
    rw [if_neg (by omega), if_neg (by omega)]
  · simp [endsWithCRLF]

/-- Claim C8 witness: 16384 bytes `a` with no terminator fail with
`Format`; 16381 bytes `a` followed by `\r\n` (16383 octets in all) are
read successfully and pass the `\r\n` check. -/
theorem claim8_witness :
    next_line (List.replicate 16384 97 ++ []) = .error .Format ∧
    next_line ((List.replicate 16381 97 ++ [13, 10]) ++ []) =
      .ok (List.replicate 16381 97 ++ [13, 10], []) ∧
    endsWithCRLF (List.replicate 16381 97 ++ [13, 10]) = true ∧
    (List.replicate 16381 97 ++ [13, 10]).length = LINE_CAP - 1 :=
  claim8_line_cap_boundary (List.replicate 16384 97) (List.replicate 16381 97)
    [] []
    (by rw [List.length_replicate]; rfl)
    (by
      intro b hb
      have := List.eq_of_mem_replicate hb
      subst this
      decide)
    (by rw [List.length_replicate]; rfl)
    (by
      intro b hb
      have := List.eq_of_mem_replicate hb
      subst this
      decide)

/-! ## Lemmas about the media-type matchers -/

theorem scanBound (qc rest : List Nat) :
    rest.length ≤ (qc ++ 34 :: rest).length := by
  simp
  omega

theorem scanQS_closes (qc rest : List Nat) (h : QSContent qc) :
    scanQS (qc ++ 34 :: rest) = some (qc, ⟨rest, scanBound qc rest⟩) := by
  induction h with
  | nil =>
    simp only [List.nil_append]
    unfold scanQS
    rw [if_pos rfl]
  | qd b t h1 h2 ht ih =>
    show scanQS (b :: (t ++ 34 :: rest)) = _
    unfold scanQS
    rw [if_neg h1, if_neg h2, ih]
  | esc c t ht ih =>
    show scanQS (92 :: c :: (t ++ 34 :: rest)) = _
    unfold scanQS
    rw [if_neg (by decide : ¬(92 = 34)), if_pos rfl]
    simp only [ih]

theorem matchParamValue_token (v tail : List Nat) (hv : v ≠ [])
    (hvt : ∀ b ∈ v, isTokenByte b = true)
    (htail : ∀ c, tail.head? = some c → isTokenByte c = false) :
    matchParamValue (v ++ tail) = some (v, tail) := by
  have hm : (v ++ tail).takeWhile isTokenByte = v ∧
      (v ++ tail).dropWhile isTokenByte = tail := by
    cases tail with
    | nil =>
      have := takeWhile_all isTokenByte v hvt
      simpa using this
    | cons c t =>
      exact takeWhile_append_cons isTokenByte v c t hvt (htail c rfl)
  unfold matchParamValue
  rw [hm.1, hm.2, if_neg (by simp [hv] : ¬ v.isEmpty = true)]

theorem matchParamValue_quoted (qc tail : List Nat) (h : QSContent qc) :
    matchParamValue (34 :: (qc ++ 34 :: tail)) =
      some (34 :: (qc ++ [34]), tail) := by
  have ht : (34 :: (qc ++ 34 :: tail)).takeWhile isTokenByte = [] := by
    rw [List.takeWhile_cons_of_neg (by decide)]
  unfold matchParamValue
  rw [ht, if_pos (by simp)]
  simp [scanQS_closes qc tail h]

theorem decode_quoted (qc : List Nat) :
    decodeParamValue (34 :: (qc ++ [34])) =
      qc.filter (fun c => !(c == 92)) := by
  unfold decodeParamValue
  rw [if_pos (show (34 :: (qc ++ [34])).head? = some 34 from rfl)]
  have hd : (34 :: (qc ++ [34])).drop 1 = qc ++ [34] := rfl
  have hlen : (34 :: (qc ++ [34])).length - 2 = qc.length := by simp
  rw [hd, hlen, List.take_left]

theorem decode_token (v : List Nat) (hv : v ≠ [])
    (hvt : ∀ b ∈ v, isTokenByte b = true) : decodeParamValue v = v := by
  obtain ⟨c, t, rfl⟩ := List.exists_cons_of_ne_nil hv
  have hc : isTokenByte c = true := hvt c (by simp)
  have hne : ¬ ((c :: t).head? = some 34) := by
    simp only [List.head?_cons, Option.some.injEq]
    intro h
    subst h
    exact absurd hc (by decide)
  unfold decodeParamValue
  rw [if_neg hne]

theorem matchParam_segment (nm vp q rest : List Nat)
    (hnm : nm ≠ []) (hnmt : ∀ b ∈ nm, isTokenByte b = true)
    (hmv : matchParamValue vp = some (q, rest)) :
    matchParam (59 :: (nm ++ 61 :: vp)) =
      some ((nm, decodeParamValue q), rest) := by
  obtain ⟨c0, nmt, rfl⟩ := List.exists_cons_of_ne_nil hnm
  have hc0 : isTokenByte c0 = true := hnmt c0 (by simp)
  have hm := takeWhile_append_cons isTokenByte (c0 :: nmt) 61 vp hnmt
    (by decide)
  have hd2 : ((c0 :: nmt) ++ 61 :: vp).dropWhile isOWSByte =
      (c0 :: nmt) ++ 61 :: vp := by
    rw [List.cons_append,
      List.dropWhile_cons_of_neg (by simp [token_not_ows hc0])]
  unfold matchParam
  rw [List.dropWhile_cons_of_neg (by decide)]
  unfold matchParamAfterOWS
  simp only [hd2, hm.1, hm.2, hmv, List.isEmpty_cons, Bool.false_eq_true,
    if_false, reduceIte]

theorem matchTypeSubtype_ok (t st tail : List Nat)
    (ht : t ≠ []) (htt : ∀ b ∈ t, isTokenByte b = true)
    (hst : st ≠ []) (hstt : ∀ b ∈ st, isTokenByte b = true)
    (htail : ∀ c, tail.head? = some c → isTokenByte c = false) :
    matchTypeSubtype (t ++ 47 :: (st ++ tail)) = some (t, st, tail) := by
  have hm1 := takeWhile_append_cons isTokenByte t 47 (st ++ tail) htt
    (by decide)
  have hm2 : (st ++ tail).takeWhile isTokenByte = st ∧
      (st ++ tail).dropWhile isTokenByte = tail := by
    cases tail with
    | nil =>
      have := takeWhile_all isTokenByte st hstt
      simpa using this
    | cons c t2 =>
      exact takeWhile_append_cons isTokenByte st c t2 hstt (htail c rfl)
  unfold matchTypeSubtype
  simp only [hm1.1, hm1.2, hm2.1, hm2.2,
    List.isEmpty_eq_false.mpr ht, List.isEmpty_eq_false.mpr hst,
    Bool.false_eq_true, if_false, reduceIte]

theorem paramLoop_nil (ps : List (List Nat × List Nat)) :
    paramLoop ps [] = .ok ps := by
  unfold paramLoop
  rfl

theorem paramLoop_fail (ps : List (List Nat × List Nat)) (s : List Nat)
    (hs : s ≠ []) (hm : matchParam s = none) :
    paramLoop ps s = .error .mk := by
  obtain ⟨a, tl, rfl⟩ := List.exists_cons_of_ne_nil hs
  unfold paramLoop
  split
  · rfl
  · rename_i nm v rest heq
    rw [hm] at heq
    exact absurd heq (by simp)

theorem paramLoop_one (ps : List (List Nat × List Nat)) (a : Nat)
    (tl nm v : List Nat) (hm : matchParam (a :: tl) = some ((nm, v), [])) :
    paramLoop ps (a :: tl) = .ok (insertParam ps nm v) := by
  unfold paramLoop
  split
  · rename_i heq
    rw [hm] at heq
    exact absurd heq (by simp)
  · rename_i nm2 v2 rest2 heq
    rw [hm, Option.some.injEq, Prod.mk.injEq, Prod.mk.injEq] at heq
    obtain ⟨⟨e1, e2⟩, e3⟩ := heq
    subst e1
    subst e2
    subst e3
    exact paramLoop_nil _

/-! ## Claims about parse_media_type -/

/-- Claim C6: for a parameter whose value is in quoted-string form the
stored decoded value is the byte sequence between the delimiting
quotes with every `\` byte dropped and all other bytes (including the
byte after a `\`) copied through in order; for a bare token value the
bytes are stored as-is. -/
theorem claim6_param_value_decoding (t st nm qc v : List Nat)
    (ht : t ≠ []) (htt : ∀ b ∈ t, isTokenByte b = true)
    (hst : st ≠ []) (hstt : ∀ b ∈ st, isTokenByte b = true)
    (hnm : nm ≠ []) (hnmt : ∀ b ∈ nm, isTokenByte b = true)
    (hqc : QSContent qc)
    (hv : v ≠ []) (hvt : ∀ b ∈ v, isTokenByte b = true) :
    parse_media_type
        (t ++ 47 :: (st ++ 59 :: (nm ++ 61 :: (34 :: (qc ++ [34]))))) =
      .ok ⟨t, st, [(nm, qc.filter (fun c => !(c == 92)))]⟩ ∧
    parse_media_type (t ++ 47 :: (st ++ 59 :: (nm ++ 61 :: v))) =
      .ok ⟨t, st, [(nm, v)]⟩ := by
  constructor
  · have hmv := matchParamValue_quoted qc [] hqc
    have hseg := matchParam_segment nm (34 :: (qc ++ 34 :: []))
      (34 :: (qc ++ [34])) [] hnm hnmt hmv
    have hts := matchTypeSubtype_ok t st
      (59 :: (nm ++ 61 :: (34 :: (qc ++ [34])))) ht htt hst hstt
      (by
        intro c hc
        simp only [List.head?_cons, Option.some.injEq] at hc
        subst hc
        decide)
    have hloop := paramLoop_one [] 59 (nm ++ 61 :: (34 :: (qc ++ [34]))) nm
      (decodeParamValue (34 :: (qc ++ [34]))) hseg
    unfold parse_media_type
    simp only [hts, hloop, decode_quoted, insertParam]
    simp
  · have hmv : matchParamValue v = some (v, []) := by
      simpa using matchParamValue_token v [] hv hvt
        (by intro c hc; simp at hc)
    have hseg := matchParam_segment nm v v [] hnm hnmt hmv
    have hts := matchTypeSubtype_ok t st (59 :: (nm ++ 61 :: v))
      ht htt hst hstt
      (by
        intro c hc
        simp only [List.head?_cons, Option.some.injEq] at hc
        subst hc
        decide)
    have hloop := paramLoop_one [] 59 (nm ++ 61 :: v) nm
      (decodeParamValue v) hseg
    unfold parse_media_type
    simp only [hts, hloop, decode_token v hv hvt, insertParam]
    simp

/-- Claim C6 witness: `a/b;c="\de"` stores parameter `c` as the bytes
`de` (quotes stripped, the `\` dropped, the escaped byte kept), and
`a/b;c=u` stores `u` as-is. -/
theorem claim6_witness :
    parse_media_type
        ([97] ++ 47 :: ([98] ++ 59 :: ([99] ++ 61 ::
          (34 :: ([92, 100, 101] ++ [34]))))) =
      .ok ⟨[97], [98], [([99], [100, 101])]⟩ ∧
    parse_media_type ([97] ++ 47 :: ([98] ++ 59 :: ([99] ++ 61 :: [117]))) =
      .ok ⟨[97], [98], [([99], [117])]⟩ := by
  have h := claim6_param_value_decoding [97] [98] [99] [92, 100, 101] [117]
    (by decide) (by decide) (by decide) (by decide) (by decide) (by decide)
    (QSContent.esc 100 [101]
      (QSContent.qd 101 [] (by decide) (by decide) QSContent.nil))
    (by decide) (by decide)
  exact ⟨h.1, h.2⟩

/-- Claim C7: at any state of the parameter loop, a non-empty
remaining suffix on which no further `OWS ";" OWS token "="
(token|quoted-string)` segment matches makes the loop fail with
`InvalidMediaType`; in particular `parse_media_type` rejects any such
trailing garbage after `type/subtype`, never ignoring it. -/
theorem claim7_trailing_garbage (ps : List (List Nat × List Nat))
    (s t st : List Nat)
    (hs : s ≠ []) (hm : matchParam s = none)
    (hshead : ∀ c, s.head? = some c → isTokenByte c = false)
    (ht : t ≠ []) (htt : ∀ b ∈ t, isTokenByte b = true)
    (hst : st ≠ []) (hstt : ∀ b ∈ st, isTokenByte b = true) :
    paramLoop ps s = .error .mk ∧
    parse_media_type (t ++ 47 :: (st ++ s)) = .error .mk := by
  refine ⟨paramLoop_fail ps s hs hm, ?_⟩
  have hts := matchTypeSubtype_ok t st s ht htt hst hstt hshead
  unfold parse_media_type
  simp only [hts, paramLoop_fail [] s hs hm]

/-- Claim C7 witness: the suffix `";"` (no parameter after it) makes
the loop fail, and `a/b;` fails as a whole. -/
theorem claim7_witness :
    paramLoop [] [59] = .error .mk ∧
    parse_media_type ([97] ++ 47 :: ([98] ++ [59])) = .error .mk :=
  claim7_trailing_garbage [] [59] [97] [98] (by decide) (by decide)
    (by
      intro c hc
      simp only [List.head?_cons, Option.some.injEq] at hc
      subst hc
      decide)
    (by decide) (by decide) (by decide) (by decide)
